import Mathlib

/-!
Shallow embedding of the codex-wrapper translation and session-continuity
layer, together with proofs of its specified properties.

The embedding follows the TypeScript sources:
* message adapter (`MessageAdapter.messagesToPrompt`, `validateMessages`),
* session manager (`SessionManager`), modelled as explicit state passing over
  an insertion-ordered association list (the JS `Map`), with wall-clock time
  passed in as a `Nat` parameter,
* codex client streaming generator (`CodexClient.runCompletionStreaming`),
  modelled as a pure function from the backend event list to the produced
  `StreamEvent` list,
* the streaming branch of the `/v1/chat/completions` route, modelled as a
  function from the `StreamEvent` list to the writes performed and the
  resulting session store,
* tool-call extraction (`ToolHandler.extractToolCalls`), including executable
  models of the two regex passes and of `JSON.parse` / `JSON.stringify`.

JavaScript string truthiness (`undefined`, `null` and `""` are falsy) is
modelled by `truthyS` on `Option String`.
-/

namespace CodexWrapper

/-- JS truthiness of an optional string: absent and empty strings are falsy. -/
def truthyS : Option String → Bool
  | none => false
  | some s => !(s == "")

/-- JS falsiness of an optional string. -/
def falsyS (s : Option String) : Bool := !truthyS s

/-! ## Data model (models.ts) -/

/-- `FunctionCall` from models.ts: the name and JSON-encoded arguments. -/
structure FunctionCall where
  name : String
  arguments : String
deriving DecidableEq, Repr

/-- `ToolCall` from models.ts. -/
structure ToolCall where
  id : String
  type : String
  function : FunctionCall
deriving DecidableEq, Repr

/-- `Message` from models.ts.  `role` is optional so that entries lacking a
role (rejected by validation) are representable, mirroring untyped JSON
input. -/
structure Message where
  role : Option String := none
  content : Option String := none
  name : Option String := none
  tool_calls : Option (List ToolCall) := none
  tool_call_id : Option String := none
deriving DecidableEq, Repr

/-! ## Message adapter (message-adapter.ts) -/

/-- The four roles accepted by `validateMessages`. -/
def validRoles : List String := ["system", "user", "assistant", "tool"]

/-- Contribution of one message to the `systemMessages` array in
`MessageAdapter.messagesToPrompt`: a system message pushes its content only
when the content is truthy. -/
def sysContrib (m : Message) : List String :=
  if m.role == some "system" then
    if truthyS m.content then [m.content.getD ""] else []
  else []

/-- Rendering of an assistant message's tool calls in
`MessageAdapter.messagesToPrompt`. -/
def toolCallsLine (tcs : List ToolCall) : String :=
  String.intercalate "\n"
    (tcs.map (fun tc => "Tool call: " ++ tc.function.name ++ "(" ++ tc.function.arguments ++ ")"))

/-- Contribution of one message to the `conversationMessages` array in
`MessageAdapter.messagesToPrompt`. -/
def convContrib (m : Message) : List String :=
  if m.role == some "user" then
    ["User: " ++ (if truthyS m.name then m.name.getD "" ++ ": " else "") ++ m.content.getD ""]
  else if m.role == some "assistant" then
    (if truthyS m.content then ["Assistant: " ++ m.content.getD ""] else []) ++
    (match m.tool_calls with
     | some tcs => if tcs.length > 0 then ["Assistant: " ++ toolCallsLine tcs] else []
     | none => [])
  else if m.role == some "tool" then
    ["Tool result: " ++ m.content.getD ""]
  else []

/-- The collection loop of `MessageAdapter.messagesToPrompt`: builds the
`systemMessages` and `conversationMessages` arrays in input order. -/
def collectPrompt : List Message → List String × List String
  | [] => ([], [])
  | m :: rest =>
    let p := collectPrompt rest
    (sysContrib m ++ p.1, convContrib m ++ p.2)

/-- `MessageAdapter.messagesToPrompt`: returns the `(prompt, systemPrompt)`
pair, with `systemPrompt` absent when no system content was collected. -/
def messagesToPrompt (messages : List Message) : String × Option String :=
  let p := collectPrompt messages
  (String.intercalate "\n\n" p.2,
   if p.1.isEmpty then none else some (String.intercalate "\n\n" p.1))

/-- Per-message rejection test of `MessageAdapter.validateMessages`: a falsy
role, a role outside `validRoles`, or a user message with falsy content —
the disjunction of the three sequential checks of the source loop. -/
def msgBad (m : Message) : Bool :=
  falsyS m.role
  || !(validRoles.contains (m.role.getD ""))
  || (m.role == some "user" && falsyS m.content)

/-- The validation loop of `MessageAdapter.validateMessages`: returns the
first error message, walking the list with its index. -/
def validateMessagesAux : List Message → Nat → Option String
  | [], _ => none
  | m :: rest, i =>
    if falsyS m.role then
      some ("Message at index " ++ toString i ++ " missing required field: role")
    else if !(validRoles.contains (m.role.getD "")) then
      some ("Message at index " ++ toString i ++ " has invalid role: " ++ m.role.getD "")
    else if m.role == some "user" && falsyS m.content then
      some ("User message at index " ++ toString i ++ " missing content")
    else validateMessagesAux rest (i + 1)

/-- `MessageAdapter.validateMessages`: `(valid, error)`. -/
def validateMessages (messages : List Message) : Bool × Option String :=
  if messages.isEmpty then (false, some "Messages must be a non-empty array")
  else
    match validateMessagesAux messages 0 with
    | some e => (false, some e)
    | none => (true, none)

/-! ## Session manager (session-manager.ts) -/

/-- A `Session` record.  Wall-clock instants are modelled as `Nat`. -/
structure Session where
  sessionId : String
  threadId : String
  messages : List Message
  createdAt : Nat
  lastActive : Nat
  messageCount : Nat
deriving DecidableEq, Repr

/-- The session store: the insertion-ordered `Map` of the `SessionManager`. -/
abbrev Store := List (String × Session)

/-- `Map.get`: the value of the first (unique) entry with the given key. -/
def storeGet : Store → String → Option Session
  | [], _ => none
  | p :: rest, key => if p.1 = key then some p.2 else storeGet rest key

/-- `Map.set`: replaces the entry in place when the key exists, otherwise
appends at the end, as a JS `Map` does. -/
def storeSet : Store → String → Session → Store
  | [], key, v => [(key, v)]
  | p :: rest, key, v => if p.1 = key then (key, v) :: rest else p :: storeSet rest key v

/-- The keys of the store, in order. -/
def storeKeys (store : Store) : List String := store.map Prod.fst

/-- `SessionInfo` from models.ts, with timestamps as `Nat`. -/
structure SessionInfo where
  session_id : String
  created_at : Nat
  last_active : Nat
  message_count : Nat
  expires_at : Nat
deriving DecidableEq, Repr

/-- The append loop of `SessionManager.processMessages`: pushes every
non-system message onto the session history, bumping `messageCount` once per
push. -/
def appendMessages (s : Session) : List Message → Session
  | [] => s
  | m :: rest =>
    if m.role == some "system" then appendMessages s rest
    else
      appendMessages
        { s with messages := s.messages ++ [m], messageCount := s.messageCount + 1 } rest

/-- `SessionManager.processMessages`: returns the updated store together with
`[allMessages, actualSessionId]`.  A falsy `sessionId` (absent or empty, as
the JS truthiness test in the source) means stateless mode. -/
def processMessages (store : Store) (now : Nat) (messages : List Message)
    (sessionId : Option String) : Store × List Message × Option String :=
  if falsyS sessionId then (store, messages, none)
  else
    let sid := sessionId.getD ""
    let s0 := match storeGet store sid with
      | some s => s
      | none =>
        { sessionId := sid, threadId := "", messages := [], createdAt := now,
          lastActive := now, messageCount := 0 }
    let s1 := appendMessages { s0 with lastActive := now } messages
    (storeSet store sid s1, s1.messages, some sid)

/-- `SessionManager.addAssistantResponse`: appends the message and refreshes
`lastActive` when the session exists; otherwise does nothing. -/
def addAssistantResponse (store : Store) (now : Nat) (sessionId : String)
    (message : Message) : Store :=
  match storeGet store sessionId with
  | none => store
  | some s =>
    storeSet store sessionId
      { s with messages := s.messages ++ [message],
               messageCount := s.messageCount + 1, lastActive := now }

/-- `SessionManager.getThreadId`. -/
def getThreadId (store : Store) (sessionId : String) : Option String :=
  (storeGet store sessionId).map Session.threadId

/-- `SessionManager.setThreadId`: overwrites the thread handle when the
session exists; otherwise does nothing. -/
def setThreadId (store : Store) (sessionId threadId : String) : Store :=
  match storeGet store sessionId with
  | none => store
  | some s => storeSet store sessionId { s with threadId := threadId }

/-- `SessionManager.listSessions`. -/
def listSessions (store : Store) (ttl : Nat) : List SessionInfo :=
  store.map (fun p =>
    { session_id := p.1, created_at := p.2.createdAt, last_active := p.2.lastActive,
      message_count := p.2.messageCount, expires_at := p.2.lastActive + ttl })

/-- `SessionManager.deleteSession`: removes the entry and reports whether it
was present. -/
def deleteSession (store : Store) (sessionId : String) : Store × Bool :=
  (store.filter (fun p => !(p.1 = sessionId : Bool)), (storeGet store sessionId).isSome)

/-- `SessionManager.cleanup`: deletes every session with
`now > lastActive + ttl`. -/
def cleanup (store : Store) (ttl now : Nat) : Store :=
  store.filter (fun p => !(decide (p.2.lastActive + ttl < now)))

/-- The implicit bookkeeping invariant of the session store: every session's
`messageCount` equals the length of its history. -/
def invStore (store : Store) : Prop :=
  ∀ p ∈ store, (p : String × Session).2.messageCount = p.2.messages.length

/-! ## Codex client streaming (codex-client.ts) -/

/-- Token usage record from codex-client.ts. -/
structure Usage where
  prompt_tokens : Nat
  completion_tokens : Nat
  total_tokens : Nat
deriving DecidableEq, Repr

/-- `StreamEvent` from codex-client.ts: a tagged record whose optional fields
are populated according to `type`. -/
structure StreamEvent where
  type : String
  content : Option String := none
  usage : Option Usage := none
  thread_id : Option String := none
  finish_reason : Option String := none
  error : Option String := none
deriving DecidableEq, Repr

/-- Usage payload of a backend `turn.completed` event
(`inputTokens`/`outputTokens`, each possibly missing). -/
structure BUsage where
  inputTokens : Option Nat := none
  outputTokens : Option Nat := none
deriving DecidableEq, Repr

/-- Content of a backend `message` item: either a plain string or an array of
parts each carrying an optional `text`. -/
inductive ItemContent
  | str (s : String)
  | parts (l : List (Option String))
deriving DecidableEq, Repr

/-- A backend item inside an `item.completed` event. -/
inductive CodexItem
  | textItem (text : Option String)
  | messageItem (content : Option ItemContent)
  | otherItem
deriving DecidableEq, Repr

/-- A backend SDK event, as consumed by `runCompletionStreaming`. -/
inductive BackendEvent
  | itemCompleted (item : Option CodexItem)
  | turnCompleted (usage : Option BUsage)
  | errorEvt (error : Option String)
  | otherEvt
deriving DecidableEq, Repr

/-- Conversion of a backend usage payload, with `|| 0` defaulting, as in the
`turn.completed` branch. -/
def mkUsage (u : BUsage) : Usage :=
  { prompt_tokens := u.inputTokens.getD 0,
    completion_tokens := u.outputTokens.getD 0,
    total_tokens := u.inputTokens.getD 0 + u.outputTokens.getD 0 }

/-- Joined text of a `message` item's part array:
`item.content.map(c => c.text || '').join('')`. -/
def joinParts (l : List (Option String)) : String :=
  String.join (l.map (fun c => c.getD ""))

/-- `StreamEvent`s yielded for one `item.completed` backend event. -/
def itemOutput (threadId : Option String) : Option CodexItem → List StreamEvent
  | some (CodexItem.textItem t) =>
    if truthyS t then [{ type := "content", content := some (t.getD ""), thread_id := threadId }]
    else []
  | some (CodexItem.messageItem c) =>
    match c with
    | none => []
    | some (ItemContent.str s) =>
      if s == "" then [] else [{ type := "content", content := some s, thread_id := threadId }]
    | some (ItemContent.parts l) =>
      let s := joinParts l
      if s == "" then [] else [{ type := "content", content := some s, thread_id := threadId }]
  | some CodexItem.otherItem => []
  | none => []

/-- Message attached to a translated backend error event:
`'error' in event ? String(event.error) : 'Unknown error'`. -/
def errText : Option String → String
  | some s => s
  | none => "Unknown error"

/-- The event loop of `runCompletionStreaming`: translates each backend event
in order, threading the `totalUsage` accumulator; returns the yielded events
and the final accumulator. -/
def translateEvents (threadId : Option String) (totalUsage : Option Usage) :
    List BackendEvent → List StreamEvent × Option Usage
  | [] => ([], totalUsage)
  | e :: rest =>
    match e with
    | BackendEvent.itemCompleted item =>
      let r := translateEvents threadId totalUsage rest
      (itemOutput threadId item ++ r.1, r.2)
    | BackendEvent.turnCompleted u =>
      match u with
      | some u0 =>
        let r := translateEvents threadId (some (mkUsage u0)) rest
        ({ type := "usage", usage := some (mkUsage u0), thread_id := threadId } :: r.1, r.2)
      | none =>
        translateEvents threadId totalUsage rest
    | BackendEvent.errorEvt err =>
      let r := translateEvents threadId totalUsage rest
      ({ type := "error", error := some (errText err), thread_id := threadId } :: r.1, r.2)
    | BackendEvent.otherEvt =>
      translateEvents threadId totalUsage rest

/-- The terminal event yielded after the loop finishes. -/
def completeEvent (threadId : Option String) (totalUsage : Option Usage) : StreamEvent :=
  { type := "complete", thread_id := threadId, finish_reason := some "stop",
    usage := totalUsage }

/-- `CodexClient.runCompletionStreaming` on the normal path: the full event
sequence produced when backend iteration completes without throwing. -/
def runCompletionStreaming (threadId : Option String) (events : List BackendEvent) :
    List StreamEvent :=
  let r := translateEvents threadId none events
  r.1 ++ [completeEvent threadId r.2]

/-- `CodexClient.runCompletionStreaming` when iterating the backend events
raises after `consumed` events: the catch block yields a single error event
(with no thread id) and the generator ends. -/
def runCompletionStreamingAborted (threadId : Option String)
    (consumed : List BackendEvent) (message : String) : List StreamEvent :=
  (translateEvents threadId none consumed).1 ++
    [{ type := "error", error := some message }]

/-! ## Streaming branch of POST /v1/chat/completions (index.ts) -/

/-- One write performed on the raw reply stream by the streaming branch. -/
inductive RawWrite
  | chunk (content : String)
  | finalChunk (finish_reason : String) (usage : Option Usage)
  | doneMarker
  | errorWrite (message : String)
deriving DecidableEq, Repr

/-- The `for await` loop of the streaming branch: consumes translator events,
produces the raw writes and the updated session store.  On a `complete`
event it writes the final chunk and the end marker, then binds the thread
handle when a session id and a thread id are both truthy; on an `error`
event it throws, which the surrounding catch turns into a single error write
that ends the stream. -/
def streamLoop (store : Store) (sessionId : Option String) :
    List StreamEvent → Store × List RawWrite
  | [] => (store, [])
  | e :: rest =>
    if e.type == "content" && truthyS e.content then
      let r := streamLoop store sessionId rest
      (r.1, RawWrite.chunk (e.content.getD "") :: r.2)
    else if e.type == "complete" then
      let fin := if truthyS e.finish_reason then e.finish_reason.getD "" else "stop"
      let store1 :=
        if truthyS sessionId && truthyS e.thread_id then
          setThreadId store (sessionId.getD "") (e.thread_id.getD "")
        else store
      let r := streamLoop store1 sessionId rest
      (r.1, RawWrite.finalChunk fin e.usage :: RawWrite.doneMarker :: r.2)
    else if e.type == "error" then
      (store, [RawWrite.errorWrite (if truthyS e.error then e.error.getD "" else "Unknown error")])
    else
      streamLoop store sessionId rest

/-! ## JSON (model of the platform's JSON.parse / JSON.stringify)

`JSON.parse` is strict JSON; numbers are kept as their lexeme, which is
round-trip faithful for the integer and plain-decimal literals this layer
ever sees. -/

/-- A parsed JSON value. -/
inductive Json
  | null
  | bool (b : Bool)
  | num (lexeme : String)
  | str (s : String)
  | arr (elems : List Json)
  | obj (fields : List (String × Json))

/-- JSON whitespace. -/
def isJsonWs (c : Char) : Bool := c = ' ' || c = '\t' || c = '\n' || c = '\r'

/-- Skip JSON whitespace. -/
def skipWs (cs : List Char) : List Char := cs.dropWhile isJsonWs

/-- Decimal digit test. -/
def isDigitChar (c : Char) : Bool := '0' ≤ c && c ≤ '9'

/-- Hex digit value (code points 0-9, a-f, A-F). -/
def hexVal (c : Char) : Option Nat :=
  let n := c.toNat
  if 48 ≤ n && n ≤ 57 then some (n - 48)
  else if 97 ≤ n && n ≤ 102 then some (n - 87)
  else if 65 ≤ n && n ≤ 70 then some (n - 55)
  else none

/-- Parse the body of a JSON string after the opening quote; returns the
decoded characters and the remainder after the closing quote. -/
def parseStringBody : Nat → List Char → Option (List Char × List Char)
  | 0, _ => none
  | _ + 1, [] => none
  | fuel + 1, c :: rest =>
    if c = '"' then some ([], rest)
    else if c = '\\' then
      match rest with
      | [] => none
      | esc :: rest1 =>
        let dec : Option (Char × List Char) :=
          if esc = '"' then some ('"', rest1)
          else if esc = '\\' then some ('\\', rest1)
          else if esc = '/' then some ('/', rest1)
          else if esc = 'b' then some (Char.ofNat 8, rest1)
          else if esc = 'f' then some (Char.ofNat 12, rest1)
          else if esc = 'n' then some ('\n', rest1)
          else if esc = 'r' then some ('\r', rest1)
          else if esc = 't' then some ('\t', rest1)
          else if esc = 'u' then
            match rest1 with
            | a :: b :: c2 :: d :: rest2 =>
              match hexVal a, hexVal b, hexVal c2, hexVal d with
              | some ha, some hb, some hc, some hd =>
                some (Char.ofNat (((ha * 16 + hb) * 16 + hc) * 16 + hd), rest2)
              | _, _, _, _ => none
            | _ => none
          else none
        match dec with
        | some dr =>
          match parseStringBody fuel dr.2 with
          | some tr => some (dr.1 :: tr.1, tr.2)
          | none => none
        | none => none
    else if c.toNat < 32 then none
    else
      match parseStringBody fuel rest with
      | some tr => some (c :: tr.1, tr.2)
      | none => none

/-- Lex a JSON number: optional minus, integer part without leading zeros,
optional fraction, optional exponent.  Returns the lexeme and the rest. -/
def lexNumber (cs : List Char) : Option (List Char × List Char) :=
  let afterMinus : Option (List Char × List Char) :=
    match cs with
    | '-' :: rest => some (['-'], rest)
    | _ => some ([], cs)
  match afterMinus with
  | none => none
  | some sr =>
    match sr.2 with
    | [] => none
    | c :: rest =>
      if c = '0' then
        let intPart := (sr.1 ++ ['0'], rest)
        some intPart
      else if isDigitChar c then
        let ds := rest.takeWhile isDigitChar
        some (sr.1 ++ c :: ds, rest.drop ds.length)
      else none

/-- Continue a number lexeme with an optional fraction part. -/
def lexFrac (lexeme : List Char) (cs : List Char) : Option (List Char × List Char) :=
  match cs with
  | '.' :: rest =>
    let ds := rest.takeWhile isDigitChar
    if ds.isEmpty then none
    else some (lexeme ++ '.' :: ds, rest.drop ds.length)
  | _ => some (lexeme, cs)

/-- Continue a number lexeme with an optional exponent part. -/
def lexExp (lexeme : List Char) (cs : List Char) : Option (List Char × List Char) :=
  match cs with
  | c :: rest =>
    if c = 'e' || c = 'E' then
      let sr : List Char × List Char :=
        match rest with
        | '+' :: rest1 => ([c, '+'], rest1)
        | '-' :: rest1 => ([c, '-'], rest1)
        | _ => ([c], rest)
      let ds := sr.2.takeWhile isDigitChar
      if ds.isEmpty then none
      else some (lexeme ++ sr.1 ++ ds, sr.2.drop ds.length)
    else some (lexeme, cs)
  | [] => some (lexeme, cs)

/-- Full JSON number lexeme. -/
def parseNumber (cs : List Char) : Option (List Char × List Char) :=
  match lexNumber cs with
  | none => none
  | some ir =>
    match lexFrac ir.1 ir.2 with
    | none => none
    | some fr =>
      match lexExp fr.1 fr.2 with
      | none => none
      | some er => some er

/-- Insert an object field with last-write-wins duplicate-key semantics, as
`JSON.parse` builds JS objects. -/
def objInsert : List (String × Json) → String → Json → List (String × Json)
  | [], k, v => [(k, v)]
  | p :: rest, k, v => if p.1 = k then (k, v) :: rest else p :: objInsert rest k v

mutual

/-- Recursive-descent JSON value parser (fuel-indexed). -/
def parseValue : Nat → List Char → Option (Json × List Char)
  | 0, _ => none
  | fuel + 1, cs0 =>
    match skipWs cs0 with
    | [] => none
    | c :: rest =>
      if c = '"' then
        match parseStringBody (fuel + 1) rest with
        | some sr => some (Json.str (String.mk sr.1), sr.2)
        | none => none
      else if c = 't' then
        match rest with
        | 'r' :: 'u' :: 'e' :: rest1 => some (Json.bool true, rest1)
        | _ => none
      else if c = 'f' then
        match rest with
        | 'a' :: 'l' :: 's' :: 'e' :: rest1 => some (Json.bool false, rest1)
        | _ => none
      else if c = 'n' then
        match rest with
        | 'u' :: 'l' :: 'l' :: rest1 => some (Json.null, rest1)
        | _ => none
      else if c = '{' then
        match skipWs rest with
        | '}' :: rest1 => some (Json.obj [], rest1)
        | _ => parseMembers fuel rest []
      else if c = '[' then
        match skipWs rest with
        | ']' :: rest1 => some (Json.arr [], rest1)
        | _ => parseElems fuel rest []
      else
        match parseNumber (c :: rest) with
        | some nr => some (Json.num (String.mk nr.1), nr.2)
        | none => none

/-- Parse the members of a JSON object after its opening brace. -/
def parseMembers : Nat → List Char → List (String × Json) → Option (Json × List Char)
  | 0, _, _ => none
  | fuel + 1, cs, acc =>
    match skipWs cs with
    | '"' :: rest =>
      match parseStringBody (fuel + 1) rest with
      | some kr =>
        match skipWs kr.2 with
        | ':' :: rest1 =>
          match parseValue fuel rest1 with
          | some vr =>
            let acc1 := objInsert acc (String.mk kr.1) vr.1
            match skipWs vr.2 with
            | ',' :: rest2 => parseMembers fuel rest2 acc1
            | '}' :: rest2 => some (Json.obj acc1, rest2)
            | _ => none
          | none => none
        | _ => none
      | none => none
    | _ => none

/-- Parse the elements of a JSON array after its opening bracket. -/
def parseElems : Nat → List Char → List Json → Option (Json × List Char)
  | 0, _, _ => none
  | fuel + 1, cs, acc =>
    match parseValue fuel cs with
    | some vr =>
      match skipWs vr.2 with
      | ',' :: rest1 => parseElems fuel rest1 (acc ++ [vr.1])
      | ']' :: rest1 => some (Json.arr (acc ++ [vr.1]), rest1)
      | _ => none
    | none => none

end

/-- `JSON.parse`: parse a complete value with nothing but whitespace after
it.  The fuel is generous relative to the recursion depth an input of this
length can force. -/
def jsonParse (s : String) : Option Json :=
  match parseValue (4 * s.length + 4) s.data with
  | some vr => if skipWs vr.2 = [] then some vr.1 else none
  | none => none

/-- Escape one character for a JSON string literal. -/
def escapeChar (c : Char) : List Char :=
  if c = '"' then ['\\', '"']
  else if c = '\\' then ['\\', '\\']
  else if c = '\n' then ['\\', 'n']
  else if c = '\r' then ['\\', 'r']
  else if c = '\t' then ['\\', 't']
  else if c.toNat = 8 then ['\\', 'b']
  else if c.toNat = 12 then ['\\', 'f']
  else if c.toNat < 32 then
    let hx : Nat → Char := fun n => if n < 10 then Char.ofNat ('0'.toNat + n)
      else Char.ofNat ('a'.toNat + (n - 10))
    ['\\', 'u', '0', '0', hx (c.toNat / 16), hx (c.toNat % 16)]
  else [c]

/-- Serialization of a JSON string literal. -/
def stringifyStr (s : String) : String :=
  "\"" ++ String.mk (s.data.map escapeChar).flatten ++ "\""

mutual

/-- `JSON.stringify` (no indentation). -/
def jsonStringify : Json → String
  | Json.null => "null"
  | Json.bool true => "true"
  | Json.bool false => "false"
  | Json.num lexeme => lexeme
  | Json.str s => stringifyStr s
  | Json.arr elems => "[" ++ stringifyElems elems ++ "]"
  | Json.obj fields => "\x7b" ++ stringifyFields fields ++ "\x7d"

/-- Comma-joined serialization of array elements. -/
def stringifyElems : List Json → String
  | [] => ""
  | [v] => jsonStringify v
  | v :: rest => jsonStringify v ++ "," ++ stringifyElems rest

/-- Comma-joined serialization of object fields. -/
def stringifyFields : List (String × Json) → String
  | [] => ""
  | [(k, v)] => stringifyStr k ++ ":" ++ jsonStringify v
  | (k, v) :: rest => stringifyStr k ++ ":" ++ jsonStringify v ++ "," ++ stringifyFields rest

end

/-! ## Tool handler (tool-handler.ts) -/

/-- Regex word character (`\w`). -/
def isWordChar (c : Char) : Bool :=
  ('a' ≤ c && c ≤ 'z') || ('A' ≤ c && c ≤ 'Z') || ('0' ≤ c && c ≤ '9') || c = '_'

/-- The backtick character, used by the fenced-block pattern. -/
def fenceChar : Char := Char.ofNat 96

/-- Match the argument part of pattern 1 after the opening parenthesis:
an opening brace, one or more non-brace characters, a closing brace and the
closing parenthesis.  Returns the braced argument text and the rest. -/
def matchArgs (cs : List Char) : Option (String × List Char) :=
  match cs with
  | '{' :: cs1 =>
    let inner := cs1.takeWhile (fun c => !(c = '}' : Bool))
    if inner.isEmpty then none
    else
      match cs1.drop inner.length with
      | '}' :: ')' :: rest => some (String.mk ('{' :: inner ++ ['}']), rest)
      | _ => none
  | _ => none

/-- Left-to-right global scan for pattern 1, the inline call syntax
`name({...})`.  On a successful match the scan resumes after the match; on a
failed attempt it advances one character, as the JS regex engine does.  The
fuel is the scanned length. -/
def scanPattern1 : Nat → List Char → List (String × String)
  | 0, _ => []
  | _ + 1, [] => []
  | fuel + 1, c :: cs =>
    if isWordChar c then
      let nameRun := (c :: cs).takeWhile isWordChar
      match (c :: cs).dropWhile isWordChar with
      | '(' :: afterParen =>
        match matchArgs afterParen with
        | some ar => (String.mk nameRun, ar.1) :: scanPattern1 fuel ar.2
        | none => scanPattern1 fuel cs
      | _ => scanPattern1 fuel cs
    else scanPattern1 fuel cs

/-- Find the lazy end of a fenced body: the shortest prefix followed by a
closing brace and a newline-plus-fence terminator.  Returns the body (before
the closing brace) and the rest after the closing fence. -/
def matchFenceBody : List Char → Option (List Char × List Char)
  | [] => none
  | c :: cs =>
    if c = '}' && (cs.take 4 = ['\n', fenceChar, fenceChar, fenceChar] : Bool) then
      some ([], cs.drop 4)
    else
      match matchFenceBody cs with
      | some br => some (c :: br.1, br.2)
      | none => none

/-- Left-to-right global scan for pattern 2, fenced blocks whose tag is a
word and whose body is a braced span on its own lines. -/
def scanPattern2 : Nat → List Char → List (String × String)
  | 0, _ => []
  | _ + 1, [] => []
  | fuel + 1, c :: cs =>
    if c = fenceChar && (cs.take 2 = [fenceChar, fenceChar] : Bool) then
      let afterTicks := cs.drop 2
      let nameRun := afterTicks.takeWhile isWordChar
      if nameRun.isEmpty then scanPattern2 fuel cs
      else
        match afterTicks.dropWhile isWordChar with
        | '\n' :: '{' :: afterBrace =>
          match matchFenceBody afterBrace with
          | some br =>
            (String.mk nameRun, String.mk ('{' :: br.1 ++ ['}'])) :: scanPattern2 fuel br.2
          | none => scanPattern2 fuel cs
        | _ => scanPattern2 fuel cs
    else scanPattern2 fuel cs

/-- The names registered by `ToolRegistry.registerDefaultTools` in tools.ts,
in registration order. -/
def defaultToolNames : List String :=
  ["read_file", "write_file", "edit_file", "run_command", "list_directory",
   "search_files", "search_in_files", "web_search", "fetch_url"]

/-- Build the `ToolCall` list from the raw matches of both passes: a match is
kept when its name is registered and its argument span parses as strict
JSON; the arguments are re-serialized with `JSON.stringify`.  The generated
ids (random in the source) are modelled by a deterministic counter. -/
def buildCalls (registry : List String) : Nat → List (String × String) → List ToolCall
  | _, [] => []
  | k, (name, args) :: rest =>
    if registry.contains name then
      match jsonParse args with
      | some v =>
        { id := "call_" ++ toString k, type := "function",
          function := { name := name, arguments := jsonStringify v } } ::
          buildCalls registry (k + 1) rest
      | none => buildCalls registry k rest
    else buildCalls registry k rest

/-- `ToolHandler.extractToolCalls`: absent on falsy content, otherwise the
concatenated valid matches of the two passes, or absent when there are
none. -/
def extractToolCalls (registry : List String) (message : Message) :
    Option (List ToolCall) :=
  if falsyS message.content then none
  else
    let cs := (message.content.getD "").data
    let raw := scanPattern1 (cs.length + 1) cs ++ scanPattern2 (cs.length + 1) cs
    let calls := buildCalls registry 0 raw
    if calls.isEmpty then none else some calls

/-! ## Predicates transcribing the spec's words (for refinement claims) -/

/-- The spec's per-entry rejection condition for `validate` (C3): the entry
lacks a role, its role is outside the four recognized roles, or it is a
user entry with empty content. -/
def specBadMsg (m : Message) : Bool :=
  m.role.isNone
  || (match m.role with
      | some r => !(validRoles.contains r)
      | none => false)
  || (m.role == some "user" && falsyS m.content)

/-- The spec's rejection condition for `validate` (C3): the list is empty or
some entry is rejected. -/
def specInvalid (messages : List Message) : Bool :=
  messages.isEmpty || messages.any specBadMsg

/-- The termination shape asserted by C2: the stream contains a terminal
(`complete` or `error`) event and no event of any kind follows the first
one. -/
def oneTerminalAtEnd (out : List StreamEvent) : Bool :=
  match out.dropWhile (fun e => !(e.type == "complete" || e.type == "error")) with
  | [] => false
  | _ :: rest => rest.isEmpty

/-! ## Concrete demonstration data -/

/-- A session with an already-bound thread handle. -/
def demoSession : Session :=
  { sessionId := "s1", threadId := "t0", messages := [], createdAt := 0,
    lastActive := 0, messageCount := 0 }

/-- A fresh session with no thread handle yet. -/
def demoBlank : Session :=
  { sessionId := "s1", threadId := "", messages := [], createdAt := 0,
    lastActive := 0, messageCount := 0 }

/-- A user message. -/
def demoUserMsg : Message := { role := some "user", content := some "hi" }

/-- A session whose `lastActive` is one tick beyond the TTL at time 100 with
TTL 10. -/
def demoExpired : Session :=
  { sessionId := "old", threadId := "", messages := [], createdAt := 0,
    lastActive := 89, messageCount := 0 }

/-- A session active right now (time 100). -/
def demoFresh : Session :=
  { sessionId := "new", threadId := "", messages := [], createdAt := 0,
    lastActive := 100, messageCount := 0 }

/-- The tool-extraction example text of the spec. -/
def demoToolText : String := "read_file(\x7b\"path\":\"a.txt\"\x7d)"

/-- An assistant message carrying the tool-extraction example text. -/
def demoToolMsg : Message := { role := some "assistant", content := some demoToolText }

/-- Translator events of a streaming exchange: one content chunk, then the
terminal `complete` event carrying the backend thread handle. -/
def demoStreamEvents : List StreamEvent :=
  [{ type := "content", content := some "hello", thread_id := some "t1" },
   { type := "complete", thread_id := some "t1", finish_reason := some "stop" }]

/-! ## Store lemmas -/

theorem storeGet_storeSet_self (store : Store) (k : String) (v : Session) :
    storeGet (storeSet store k v) k = some v := by
  induction store with
  | nil => simp [storeSet, storeGet]
  | cons p rest ih =>
    by_cases h : p.1 = k
    · simp [storeSet, h, storeGet]
    · simp [storeSet, h, storeGet, ih]

theorem storeGet_storeSet_ne (store : Store) (k k' : String) (v : Session)
    (h : k ≠ k') : storeGet (storeSet store k v) k' = storeGet store k' := by
  induction store with
  | nil => simp [storeSet, storeGet, h]
  | cons p rest ih =>
    by_cases hp : p.1 = k
    · simp [storeSet, hp, storeGet, h]
    · simp [storeSet, hp, storeGet, ih]

theorem storeGet_mem (store : Store) (k : String) (s : Session)
    (h : storeGet store k = some s) : (k, s) ∈ store := by
  induction store with
  | nil => simp [storeGet] at h
  | cons p rest ih =>
    by_cases hp : p.1 = k
    · simp only [storeGet, hp, if_pos] at h
      have : p = (k, s) := by
        cases p with
        | mk a b =>
          simp only at hp
          simp only [Option.some.injEq] at h
          simp [hp, h]
      simp [this]
    · simp only [storeGet, hp, if_neg, ite_false] at h
      exact List.mem_cons_of_mem _ (ih h)

theorem mem_storeKeys_iff (store : Store) (k : String) :
    k ∈ storeKeys store ↔ (storeGet store k).isSome := by
  induction store with
  | nil => simp [storeKeys, storeGet]
  | cons p rest ih =>
    by_cases hp : p.1 = k
    · simp [storeKeys, storeGet, hp]
    · simp only [storeKeys, List.map_cons, List.mem_cons, storeGet, hp, ite_false]
      constructor
      · intro h
        rcases h with h | h
        · exact absurd h.symm hp
        · exact (ih.mp (by simpa [storeKeys] using h))
      · intro h
        exact Or.inr (by simpa [storeKeys] using ih.mpr h)

theorem storeKeys_filter_subset (store : Store) (p : String × Session → Bool) :
    storeKeys (store.filter p) ⊆ storeKeys store := by
  unfold storeKeys
  exact ((List.filter_sublist store).map Prod.fst).subset

theorem storeGet_filter_nodup (store : Store) (p : String × Session → Bool)
    (k : String) (s : Session) (hnd : (storeKeys store).Nodup)
    (h : storeGet store k = some s) :
    storeGet (store.filter p) k = if p (k, s) then some s else none := by
  induction store with
  | nil => simp [storeGet] at h
  | cons q rest ih =>
    obtain ⟨a, b⟩ := q
    have hnd2 : a ∉ storeKeys rest ∧ (storeKeys rest).Nodup := by
      have := hnd
      simp only [storeKeys, List.map_cons, List.nodup_cons] at this
      exact this
    by_cases hk : a = k
    · subst hk
      have hb : b = s := by simpa [storeGet] using h
      subst hb
      by_cases hpq : p (a, b) = true
      · simp [List.filter_cons, hpq, storeGet]
      · have hnone : storeGet (rest.filter p) a = none := by
          have hnm : a ∉ storeKeys (rest.filter p) := fun hmem =>
            hnd2.1 (storeKeys_filter_subset rest p hmem)
          rcases ho : storeGet (rest.filter p) a with _ | s'
          · rfl
          · exact absurd ((mem_storeKeys_iff _ _).mpr (by simp [ho])) hnm
        simp [List.filter_cons, hpq, hnone]
    · have hrest : storeGet rest k = some s := by
        simpa [storeGet, hk] using h
      by_cases hpq : p (a, b) = true
      · simpa [List.filter_cons, hpq, storeGet, hk] using ih hnd2.2 hrest
      · simpa [List.filter_cons, hpq] using ih hnd2.2 hrest

/-- Binding a thread handle on an existing session overwrites exactly that
session's `threadId`. -/
theorem setThreadId_of_get (store : Store) (sid t : String) (s : Session)
    (h : storeGet store sid = some s) :
    storeGet (setThreadId store sid t) sid = some { s with threadId := t } := by
  unfold setThreadId
  rw [h]
  exact storeGet_storeSet_self store sid { s with threadId := t }

/-! ## Claim theorems -/

/-- C10: calling `setThreadId` with an unknown session id is a silent no-op:
it leaves the session store entirely unchanged. -/
theorem c10_setThreadId_noop (store : Store) (sid tid : String)
    (h : storeGet store sid = none) : setThreadId store sid tid = store := by
  unfold setThreadId
  rw [h]

/-- Witness for C10 at a concrete store. -/
theorem c10_witness :
    setThreadId [("s1", demoSession)] "missing" "t9" = [("s1", demoSession)] :=
  c10_setThreadId_noop [("s1", demoSession)] "missing" "t9" (by rfl)

/-- C6: on an existing session `setThreadId` is idempotent and
last-write-wins: two calls with `t1` leave the thread handle `t1`, and a
later call with `t2` overwrites it. -/
theorem c6_setThreadId_lww (store : Store) (sid t1 t2 : String) (s : Session)
    (h : storeGet store sid = some s) :
    getThreadId (setThreadId (setThreadId store sid t1) sid t1) sid = some t1
    ∧ getThreadId (setThreadId (setThreadId (setThreadId store sid t1) sid t1) sid t2) sid
        = some t2 := by
  have h1 := setThreadId_of_get store sid t1 s h
  have h2 := setThreadId_of_get _ sid t1 _ h1
  have h3 := setThreadId_of_get _ sid t2 _ h2
  constructor
  · simp [getThreadId, h2]
  · simp [getThreadId, h3]

/-- Witness for C6 at a concrete store. -/
theorem c6_witness :
    getThreadId (setThreadId (setThreadId [("s1", demoBlank)] "s1" "t1") "s1" "t1") "s1"
      = some "t1" :=
  (c6_setThreadId_lww [("s1", demoBlank)] "s1" "t1" "t2" demoBlank (by rfl)).1

/-- The append loop of `processMessages` in one step: it appends the
non-system entries in order and bumps the counter by their number, leaving
every other field unchanged. -/
theorem appendMessages_eq (msgs : List Message) (s : Session) :
    appendMessages s msgs =
      { s with
        messages := s.messages ++ msgs.filter (fun m => !(m.role == some "system")),
        messageCount := s.messageCount
          + (msgs.filter (fun m => !(m.role == some "system"))).length } := by
  induction msgs generalizing s with
  | nil => simp [appendMessages]
  | cons m rest ih =>
    by_cases h : m.role == some "system"
    · simp [appendMessages, h, ih]
    · simp only [appendMessages, h, Bool.false_eq_true, if_neg, ite_false, ih,
        List.filter_cons, Bool.not_false, if_pos, ite_true, List.length_cons]
      simp [List.append_assoc]
      omega

/-- C4: with a truthy session id, `processMessages` looks the session up (or
creates it), appends every non-system input entry to its history in order,
refreshes `lastActive` to now, and returns the accumulated history (prior
followed by new) together with the session id. -/
theorem c4_processMessages_resolve (store : Store) (now : Nat)
    (msgs : List Message) (sid : String) (h : sid ≠ "") :
    (processMessages store now msgs (some sid)).2.1 =
        ((storeGet store sid).map Session.messages).getD []
          ++ msgs.filter (fun m => !(m.role == some "system"))
    ∧ (processMessages store now msgs (some sid)).2.2 = some sid
    ∧ ∃ s, storeGet (processMessages store now msgs (some sid)).1 sid = some s
        ∧ s.messages = ((storeGet store sid).map Session.messages).getD []
            ++ msgs.filter (fun m => !(m.role == some "system"))
        ∧ s.lastActive = now := by
  have hf : falsyS (some sid) = false := by
    simp [falsyS, truthyS, h]
  rcases hget : storeGet store sid with _ | s0
  · refine ⟨?_, ?_, ?_⟩
    · simp [processMessages, hf, hget, appendMessages_eq]
    · simp [processMessages, hf]
    · refine ⟨appendMessages
        { sessionId := sid, threadId := "", messages := [], createdAt := now,
          lastActive := now, messageCount := 0 } msgs, ?_, ?_, ?_⟩
      · simp [processMessages, hf, hget, storeGet_storeSet_self]
      · simp [appendMessages_eq, hget]
      · simp [appendMessages_eq]
  · refine ⟨?_, ?_, ?_⟩
    · simp [processMessages, hf, hget, appendMessages_eq]
    · simp [processMessages, hf]
    · refine ⟨appendMessages { s0 with lastActive := now } msgs, ?_, ?_, ?_⟩
      · simp [processMessages, hf, hget, storeGet_storeSet_self]
      · simp [appendMessages_eq, hget]
      · simp [appendMessages_eq]

/-- Witness for C4: a concrete two-turn resolve. -/
theorem c4_witness :
    (processMessages [("s1", demoSession)] 7 [demoUserMsg] (some "s1")).2.1 =
        [] ++ [demoUserMsg]
    ∧ (processMessages [("s1", demoSession)] 7 [demoUserMsg] (some "s1")).2.2 = some "s1" :=
  ⟨by
    have := (c4_processMessages_resolve [("s1", demoSession)] 7 [demoUserMsg] "s1"
      (by decide)).1
    simpa [demoSession, demoUserMsg, storeGet] using this,
   (c4_processMessages_resolve [("s1", demoSession)] 7 [demoUserMsg] "s1" (by decide)).2.1⟩

/-- C7: after one cleanup sweep at time `now`, a session with
`lastActive + TTL < now` is gone from the store and from `listSessions`,
while a session with `lastActive = now` survives unchanged. -/
theorem c7_cleanup_expiry (store : Store) (ttl now : Nat) (sid : String)
    (s : Session) (hnd : (storeKeys store).Nodup)
    (hget : storeGet store sid = some s) :
    (s.lastActive + ttl < now →
       storeGet (cleanup store ttl now) sid = none
       ∧ ∀ info ∈ listSessions (cleanup store ttl now) ttl, info.session_id ≠ sid)
    ∧ (s.lastActive = now → storeGet (cleanup store ttl now) sid = some s) := by
  constructor
  · intro hexp
    have h1 : storeGet (cleanup store ttl now) sid = none := by
      rw [cleanup, storeGet_filter_nodup store _ sid s hnd hget]
      simp [hexp]
    refine ⟨h1, ?_⟩
    intro info hinfo hsid
    simp only [listSessions, List.mem_map] at hinfo
    obtain ⟨p, hp, hpe⟩ := hinfo
    have hkey : p.1 = sid := by rw [← hpe] at hsid; exact hsid
    have hmem : sid ∈ storeKeys (cleanup store ttl now) := by
      rw [← hkey]
      exact List.mem_map_of_mem Prod.fst hp
    have := (mem_storeKeys_iff _ _).mp hmem
    rw [h1] at this
    simp at this
  · intro hla
    have hno : ¬(s.lastActive + ttl < now) := by omega
    rw [cleanup, storeGet_filter_nodup store _ sid s hnd hget]
    simp [hno]

/-- Witness for C7: at time 100 with TTL 10, the session last active at 89 is
swept and the one last active at 100 survives. -/
theorem c7_witness :
    storeGet (cleanup [("old", demoExpired), ("new", demoFresh)] 10 100) "old" = none
    ∧ storeGet (cleanup [("old", demoExpired), ("new", demoFresh)] 10 100) "new"
        = some demoFresh :=
  ⟨((c7_cleanup_expiry [("old", demoExpired), ("new", demoFresh)] 10 100 "old"
      demoExpired (by decide) (by rfl)).1 (by decide)).1,
   (c7_cleanup_expiry [("old", demoExpired), ("new", demoFresh)] 10 100 "new"
      demoFresh (by decide) (by rfl)).2 (by decide)⟩

theorem invStore_storeSet (store : Store) (k : String) (s : Session)
    (h : invStore store) (hs : s.messageCount = s.messages.length) :
    invStore (storeSet store k s) := by
  induction store with
  | nil =>
    intro p hp
    simp only [storeSet, List.mem_singleton] at hp
    simp [hp, hs]
  | cons q rest ih =>
    have hrest : invStore rest := fun p hp => h p (List.mem_cons_of_mem _ hp)
    intro p hp
    by_cases hq : q.1 = k
    · simp only [storeSet, hq, if_pos, ite_true, List.mem_cons] at hp
      rcases hp with hp | hp
      · simp [hp, hs]
      · exact h p (List.mem_cons_of_mem _ hp)
    · simp only [storeSet, hq, if_neg, ite_false, List.mem_cons] at hp
      rcases hp with hp | hp
      · exact h p (by simp [hp])
      · exact ih hrest p hp

theorem invStore_filter (store : Store) (p : String × Session → Bool)
    (h : invStore store) : invStore (store.filter p) :=
  fun q hq => h q (List.mem_of_mem_filter hq)

/-- C9: `messageCount` always equals `messages.length` — the empty store
satisfies the invariant and every session-store operation preserves it. -/
theorem c9_messageCount_invariant :
    invStore ([] : Store)
    ∧ (∀ store now msgs sid, invStore store →
        invStore (processMessages store now msgs sid).1)
    ∧ (∀ store now sid m, invStore store →
        invStore (addAssistantResponse store now sid m))
    ∧ (∀ store sid t, invStore store → invStore (setThreadId store sid t))
    ∧ (∀ store sid, invStore store → invStore (deleteSession store sid).1)
    ∧ (∀ store ttl now, invStore store → invStore (cleanup store ttl now)) := by
  refine ⟨?_, ?_, ?_, ?_, ?_, ?_⟩
  · intro p hp
    simp at hp
  · intro store now msgs sid h
    by_cases hf : falsyS sid
    · simpa [processMessages, hf] using h
    · rcases hget : storeGet store (sid.getD "") with _ | s0
      · simp only [processMessages, hf, Bool.false_eq_true, if_neg, ite_false, hget]
        refine invStore_storeSet _ _ _ h ?_
        rw [appendMessages_eq]
        simp
      · simp only [processMessages, hf, Bool.false_eq_true, if_neg, ite_false, hget]
        refine invStore_storeSet _ _ _ h ?_
        rw [appendMessages_eq]
        have hs0 : s0.messageCount = s0.messages.length :=
          h (sid.getD "", s0) (storeGet_mem _ _ _ hget)
        simp [hs0]
  · intro store now sid m h
    rcases hget : storeGet store sid with _ | s
    · simpa [addAssistantResponse, hget] using h
    · simp only [addAssistantResponse, hget]
      refine invStore_storeSet _ _ _ h ?_
      have hs : s.messageCount = s.messages.length :=
        h (sid, s) (storeGet_mem _ _ _ hget)
      simp [hs]
  · intro store sid t h
    rcases hget : storeGet store sid with _ | s
    · simpa [setThreadId, hget] using h
    · simp only [setThreadId, hget]
      refine invStore_storeSet _ _ _ h ?_
      exact h (sid, s) (storeGet_mem _ _ _ hget)
  · intro store sid h
    exact invStore_filter _ _ h
  · intro store ttl now h
    exact invStore_filter _ _ h

theorem msgBad_eq_specBadMsg (m : Message) : msgBad m = specBadMsg m := by
  rcases hr : m.role with _ | r
  · simp [msgBad, specBadMsg, hr, falsyS, truthyS]
  · by_cases he : r = ""
    · subst he
      simp [msgBad, specBadMsg, hr, falsyS, truthyS, validRoles]
    · have hb : (r == "") = false := beq_eq_false_iff_ne.mpr he
      simp [msgBad, specBadMsg, hr, falsyS, truthyS, hb]

theorem all_not_eq_not_any (l : List Message) (p : Message → Bool) :
    l.all (fun m => !p m) = !l.any p := by
  induction l with
  | nil => rfl
  | cons x xs ih => simp [List.all_cons, List.any_cons, ih, Bool.not_or]

theorem validateMessagesAux_eq_none_iff (messages : List Message) :
    ∀ i, (validateMessagesAux messages i = none
      ↔ messages.all (fun m => !msgBad m) = true) := by
  induction messages with
  | nil => intro i; simp [validateMessagesAux]
  | cons m rest ih =>
    intro i
    by_cases h1 : falsyS m.role = true
    · simp [validateMessagesAux, h1, msgBad]
    · by_cases h2 : m.role.getD "" ∈ validRoles
      · by_cases h3 : m.role = some "user" ∧ falsyS m.content = true
        · obtain ⟨hu, hb⟩ := h3
          have hfr : falsyS (some "user") = false := by decide
          simp [validateMessagesAux, hu, hb, hfr, msgBad, validRoles]
        · have h3a : ¬m.role = some "user" ∨ falsyS m.content = false := by
            by_cases hu : m.role = some "user"
            · cases hb : falsyS m.content
              · exact Or.inr rfl
              · exact absurd ⟨hu, hb⟩ h3
            · exact Or.inl hu
          simp [validateMessagesAux, h1, h2, h3, msgBad, ih]
          try tauto
      · simp [validateMessagesAux, h1, h2, msgBad]

/-- C3: `validateMessages` rejects exactly the lists the spec says it
rejects — empty list, an entry lacking a role, a role outside
`{system, user, assistant, tool}`, or a user entry with empty content — it
reports an error exactly in that case, and in particular the single user
message with empty content fails. -/
theorem c3_validateMessages_iff :
    (∀ messages, (validateMessages messages).1 = !(specInvalid messages)
        ∧ (validateMessages messages).2.isSome = specInvalid messages)
    ∧ (validateMessages [{ role := some "user", content := some "" }]).1 = false := by
  refine ⟨?_, by decide⟩
  intro messages
  have hfun : (fun m => !msgBad m) = (fun m => !specBadMsg m) :=
    funext fun m => by rw [msgBad_eq_specBadMsg]
  by_cases he : messages.isEmpty
  · constructor <;> simp [validateMessages, he, specInvalid]
  · have hspec : specInvalid messages = messages.any specBadMsg := by
      simp [specInvalid, he]
    rcases haux : validateMessagesAux messages 0 with _ | err
    · have h1 : messages.all (fun m => !msgBad m) = true :=
        (validateMessagesAux_eq_none_iff messages 0).mp haux
      rw [hfun, all_not_eq_not_any] at h1
      have hany : messages.any specBadMsg = false := by
        cases hc : messages.any specBadMsg
        · rfl
        · rw [hc] at h1; simp at h1
      constructor <;> simp [validateMessages, he, haux, hspec, hany]
    · have h1 : messages.all (fun m => !msgBad m) = false := by
        cases hc : messages.all (fun m => !msgBad m)
        · rfl
        · rw [(validateMessagesAux_eq_none_iff messages 0).mpr hc] at haux
          cases haux
      rw [hfun, all_not_eq_not_any] at h1
      have hany : messages.any specBadMsg = true := by
        cases hc : messages.any specBadMsg
        · rw [hc] at h1; simp at h1
        · rfl
      constructor <;> simp [validateMessages, he, haux, hspec, hany]

theorem collectPrompt_sys (messages : List Message) :
    (collectPrompt messages).1 =
      (messages.filter (fun m => m.role == some "system" && truthyS m.content)).map
        (fun m => m.content.getD "") := by
  induction messages with
  | nil => rfl
  | cons m rest ih =>
    by_cases h1 : (m.role == some "system") = true
    · by_cases h2 : truthyS m.content = true
      · simp [collectPrompt, sysContrib, h1, h2, List.filter_cons, ih]
      · simp [collectPrompt, sysContrib, h1, h2, List.filter_cons, ih]
    · simp [collectPrompt, sysContrib, h1, List.filter_cons, ih]

/-- C5 counterexample: on `[{role: system, content: ""}]` the returned
`systemPrompt` is absent although the list does contain a system message
(whose contents would join to `""`), contradicting the claimed
characterization. -/
theorem c5_counterexample :
    (messagesToPrompt [{ role := some "system", content := some "" }]).2 = none
    ∧ ({ role := some "system", content := some "" } : Message).role = some "system" :=
  ⟨rfl, rfl⟩

/-- C5 amended: the returned `systemPrompt` is the double-newline join of the
contents of the system messages with truthy (present, non-empty) content, in
original order, and is absent exactly when no system message has truthy
content. -/
theorem c5_systemPrompt_join (messages : List Message) :
    (messagesToPrompt messages).2 =
      (if (messages.filter (fun m => m.role == some "system" && truthyS m.content)).isEmpty
       then none
       else some (String.intercalate "\n\n"
         ((messages.filter (fun m => m.role == some "system" && truthyS m.content)).map
           (fun m => m.content.getD "")))) := by
  simp only [messagesToPrompt, collectPrompt_sys]
  rcases hf : messages.filter (fun m => m.role == some "system" && truthyS m.content) with
    _ | ⟨m, rest⟩
  · simp
  · simp

theorem storeGet_setThreadId_messages (store : Store) (sid t k : String) :
    (storeGet (setThreadId store sid t) k).map Session.messages
      = (storeGet store k).map Session.messages := by
  unfold setThreadId
  rcases h : storeGet store sid with _ | s
  · rfl
  · by_cases hk : sid = k
    · subst hk
      rw [storeGet_storeSet_self, h]
      rfl
    · rw [storeGet_storeSet_ne _ _ _ _ hk]

theorem streamLoop_messages (events : List StreamEvent) :
    ∀ store sid k,
      (storeGet (streamLoop store sid events).1 k).map Session.messages
        = (storeGet store k).map Session.messages := by
  induction events with
  | nil => intro store sid k; rfl
  | cons e rest ih =>
    intro store sid k
    simp only [streamLoop]
    split_ifs
    all_goals
      first
      | rfl
      | exact ih store sid k
      | exact (ih (setThreadId store (sid.getD "") (e.thread_id.getD "")) sid k).trans
          (storeGet_setThreadId_messages store (sid.getD "") (e.thread_id.getD "") k)

/-- C1 counterexample: with session `s1` bound, streaming one content chunk
`"hello"` and a `complete` event carrying thread id `t1` writes the terminal
chunk and end marker and binds `t1`, but the session history stays empty —
the assistant text is not persisted by the streaming branch. -/
theorem c1_counterexample :
    streamLoop [("s1", demoBlank)] (some "s1") demoStreamEvents =
      ([("s1", { demoBlank with threadId := "t1" })],
       [RawWrite.chunk "hello", RawWrite.finalChunk "stop" none, RawWrite.doneMarker])
    ∧ ({ demoBlank with threadId := "t1" } : Session).messages = [] := by
  constructor
  · decide
  · rfl

/-- C1 amended: after the terminal chunk and end marker, the streaming branch
persists only the backend thread handle: a bound session with a truthy
thread id in the `complete` event gets its `threadId` overwritten, while no
session's message history is ever changed by the streaming branch. -/
theorem c1_streaming_persistence :
    (∀ store sid events k,
        (storeGet (streamLoop store sid events).1 k).map Session.messages
          = (storeGet store k).map Session.messages)
    ∧ (∀ store (sid t : String) (s : Session), storeGet store sid = some s →
        sid ≠ "" → t ≠ "" →
        getThreadId (streamLoop store (some sid)
          [{ type := "complete", thread_id := some t }]).1 sid = some t) := by
  constructor
  · intro store sid events k
    exact streamLoop_messages events store sid k
  · intro store sid t s h hs ht
    have h1 : (sid == "") = false := beq_eq_false_iff_ne.mpr hs
    have h2 : (t == "") = false := beq_eq_false_iff_ne.mpr ht
    have hloop : (streamLoop store (some sid)
        [{ type := "complete", thread_id := some t }]).1 = setThreadId store sid t := by
      simp [streamLoop, truthyS, h1, h2]
    rw [getThreadId, hloop, setThreadId_of_get store sid t s h]
    rfl

/-- Witness for C1 (amended): at a concrete store, the thread handle is
persisted. -/
theorem c1_witness :
    getThreadId (streamLoop [("s1", demoBlank)] (some "s1")
      [{ type := "complete", thread_id := some "t7" }]).1 "s1" = some "t7" :=
  c1_streaming_persistence.2 [("s1", demoBlank)] "s1" "t7" demoBlank (by rfl)
    (by decide) (by decide)

theorem itemOutput_types (tid : Option String) (item : Option CodexItem) :
    (itemOutput tid item).all
      (fun e => e.type == "content" || e.type == "usage" || e.type == "error") = true := by
  rcases item with _ | it
  · rfl
  rcases it with t | c | _
  · by_cases h : truthyS t = true <;> simp [itemOutput, h]
  · rcases c with _ | sc
    · rfl
    rcases sc with s | l
    · by_cases h : (s == "") = true <;> simp [itemOutput, h]
    · by_cases h : (joinParts l == "") = true <;> simp [itemOutput, h]
  · rfl

theorem translateEvents_types (tid : Option String) (events : List BackendEvent) :
    ∀ tu, ((translateEvents tid tu events).1).all
      (fun e => e.type == "content" || e.type == "usage" || e.type == "error") = true := by
  induction events with
  | nil => intro tu; rfl
  | cons e rest ih =>
    intro tu
    rcases e with item | u | err | _
    · simp [translateEvents, List.all_append, itemOutput_types, ih]
    · rcases u with _ | u0
      · simpa [translateEvents] using ih tu
      · simp [translateEvents, ih]
    · simp [translateEvents, ih]
    · simpa [translateEvents] using ih tu

/-- C2 counterexample: a backend `error` event does not terminate the
produced stream — on the single backend event `error("boom")` the generator
yields an error event and then still yields a `complete` event after it. -/
theorem c2_counterexample :
    oneTerminalAtEnd (runCompletionStreaming (some "t")
      [BackendEvent.errorEvt (some "boom")]) = false := by
  decide

/-- C2 amended: on the normal path every produced stream ends with exactly
one `complete` event (all earlier events are `content`, `usage` or `error`
translations, so backend error events do not terminate the stream); when
backend iteration raises, the stream instead ends with exactly one `error`
event. -/
theorem c2_stream_termination :
    (∀ tid events,
       (runCompletionStreaming tid events).dropLast.all
          (fun e => e.type == "content" || e.type == "usage" || e.type == "error") = true
       ∧ (runCompletionStreaming tid events).getLast? =
           some (completeEvent tid (translateEvents tid none events).2))
    ∧ (∀ tid events msg,
       (runCompletionStreamingAborted tid events msg).dropLast.all
          (fun e => e.type == "content" || e.type == "usage" || e.type == "error") = true
       ∧ (runCompletionStreamingAborted tid events msg).getLast? =
           some { type := "error", error := some msg }) := by
  constructor
  · intro tid events
    constructor
    · simp only [runCompletionStreaming]
      rw [List.dropLast_concat]
      exact translateEvents_types tid events none
    · simp only [runCompletionStreaming]
      rw [List.getLast?_concat]
  · intro tid events msg
    constructor
    · simp only [runCompletionStreamingAborted]
      rw [List.dropLast_concat]
      exact translateEvents_types tid events none
    · simp only [runCompletionStreamingAborted]
      rw [List.getLast?_concat]

theorem ite_isEmpty_some (calls l : List ToolCall)
    (h : (if calls.isEmpty then none else some calls) = some l) :
    l.isEmpty = false := by
  cases calls with
  | nil => simp at h
  | cons a rest =>
    simp only [List.isEmpty_cons, Bool.false_eq_true, if_neg, ite_false,
      Option.some.injEq] at h
    rw [← h]
    rfl

/-- C8: on text containing `read_file({"path":"a.txt"})` with `read_file`
registered, extraction yields exactly one `ToolCall` named `read_file` whose
arguments parse to the object `{"path":"a.txt"}`; with `read_file`
unregistered it yields absent; and whenever extraction returns a list at
all, that list is non-empty — no valid match gives absent, never an empty
list. -/
theorem c8_extractToolCalls :
    extractToolCalls defaultToolNames demoToolMsg =
      some [{ id := "call_0", type := "function",
              function := { name := "read_file",
                            arguments := "\x7b\"path\":\"a.txt\"\x7d" } }]
    ∧ jsonParse "\x7b\"path\":\"a.txt\"\x7d" = some (Json.obj [("path", Json.str "a.txt")])
    ∧ extractToolCalls (defaultToolNames.erase "read_file") demoToolMsg = none
    ∧ ∀ registry m l, extractToolCalls registry m = some l → l.isEmpty = false := by
  refine ⟨by decide, by rfl, by decide, ?_⟩
  intro registry m l h
  simp only [extractToolCalls] at h
  by_cases hc : falsyS m.content = true
  · rw [if_pos hc] at h
    cases h
  · rw [if_neg hc] at h
    exact ite_isEmpty_some _ _ h

/-- Witness for C8: the concrete extraction above indeed returns a non-empty
list. -/
theorem c8_witness :
    ([{ id := "call_0", type := "function",
        function := { name := "read_file",
                      arguments := "\x7b\"path\":\"a.txt\"\x7d" } }] : List ToolCall).isEmpty
      = false :=
  c8_extractToolCalls.2.2.2 defaultToolNames demoToolMsg _ (by decide)

/-- Witness for C9: the invariant holds after a concrete create-and-append
followed by an assistant append. -/
theorem c9_witness :
    invStore (addAssistantResponse
      (processMessages [] 3 [demoUserMsg] (some "s1")).1 4 "s1"
      { role := some "assistant", content := some "hello" }) :=
  c9_messageCount_invariant.2.2.1
    (processMessages [] 3 [demoUserMsg] (some "s1")).1 4 "s1"
    { role := some "assistant", content := some "hello" }
    (c9_messageCount_invariant.2.1 [] 3 [demoUserMsg] (some "s1")
      c9_messageCount_invariant.1)

end CodexWrapper
